import Mathlib

/-!
Verification development for the NeuroMotion_Pi tremor-monitoring pipeline.

The Python source is shallowly embedded:
* floating-point sample values and feature computations are embedded as real
  numbers (`ℝ`), complex spectra as `ℂ`;
* wall-clock times and configuration scalars are embedded as rationals (`ℚ`)
  so that concrete witnesses evaluate;
* NumPy rolling buffers (`np.append(buf, v)[-window_size:]`) become list
  operations on `List α`;
* Python dictionaries become association lists whose `update` replaces
  existing keys in place and appends new keys at the end, as CPython does;
* the MQTT client, the clock and the broker are external collaborators, so
  `MQTTDataService.send` takes the clock readings and the publish outcome as
  explicit arguments and returns the new service state together with the
  topic it published to (if any).
-/

/-! ## Rolling buffers (main.py, `MultiSensorDataCollector.update_buffers`)

`np.append(buf, v)[-w:]` appends one sample and keeps the last `w` entries.
Python's negative slicing has the edge case `[-0:]`, which returns the whole
array; `lastSlice` reproduces it literally. -/

/-- Python slice `l[-w:]`: the last `w` elements of `l`, or all of `l` when
`w = 0` (CPython's `[-0:]` is `[0:]`). -/
def lastSlice (w : ℕ) (l : List α) : List α :=
  if w = 0 then l else l.drop (l.length - w)

/-- One buffer update of `MultiSensorDataCollector.update_buffers` for a single
axis: `np.append(buf, v)[-window_size:]`. -/
def pushSample (w : ℕ) (buf : List α) (v : α) : List α :=
  lastSlice w (buf ++ [v])

/-- The three per-axis rolling buffers kept for one sensor
(`self.buffers[name]`). -/
structure AxisBuffers (α : Type) where
  x : List α
  y : List α
  z : List α
  deriving DecidableEq

/-- Initial buffer state of `MultiSensorDataCollector.__init__`: all three
axis arrays empty. -/
def initBuffers : AxisBuffers α := ⟨[], [], []⟩

/-- Embedding of `MultiSensorDataCollector.update_buffers` for one sensor: the reading's
x, y, z components are pushed into the corresponding rolling buffers. -/
def update_buffers (w : ℕ) (b : AxisBuffers α) (r : α × α × α) : AxisBuffers α :=
  ⟨pushSample w b.x r.1, pushSample w b.y r.2.1, pushSample w b.z r.2.2⟩

/-- Equal-length invariant of the three axis buffers of one sensor. -/
def eqLen (b : AxisBuffers α) : Prop :=
  b.x.length = b.y.length ∧ b.y.length = b.z.length

/-! ## Python dictionaries as association lists -/

/-- JSON-serialisable Python values appearing in a data packet. -/
inductive PyVal where
  | str : String → PyVal
  | num : ℚ → PyVal
  | boolV : Bool → PyVal
  | dict : List (String × PyVal) → PyVal

/-- Python `str()` as used by the f-string building the MQTT topic; only the
string case is ever exercised by the claims below. -/
def pyStr : PyVal → String
  | .str s => s
  | .num _ => ""
  | .boolV _ => ""
  | .dict _ => ""

/-- A Python dict, as an association list in insertion order. -/
abbrev PyDict := List (String × PyVal)

/-- Python `k in d`. -/
def dictKeyMem (d : PyDict) (k : String) : Bool :=
  d.any (fun kv => kv.1 == k)

/-- Python `d[k]` (as an option; packet dicts never hold duplicate keys). -/
def dictGet? (d : PyDict) (k : String) : Option PyVal :=
  (d.find? (fun kv => kv.1 == k)).map Prod.snd

/-- Python `d[k] = v`: replace the binding in place when the key exists,
append it otherwise. -/
def dictSet (d : PyDict) (k : String) (v : PyVal) : PyDict :=
  if dictKeyMem d k then d.map (fun kv => if kv.1 == k then (k, v) else kv)
  else d ++ [(k, v)]

/-- Python `d.update(kvs)`. -/
def dictUpdate (d : PyDict) (kvs : PyDict) : PyDict :=
  kvs.foldl (fun acc kv => dictSet acc kv.1 kv.2) d

/-- Key list of a dict, in order. -/
def dictKeys (d : PyDict) : List String := d.map Prod.fst

/-! ## MQTT transport (src/transport/mqtt_data_service.py) -/

/-- Mutable state of `MQTTDataService` relevant to `send`: whether
`self.client` is set, the `self.connected` flag, and `self._last_pub_time`. -/
structure MQTTState where
  clientInit : Bool
  connected : Bool
  lastPubTime : ℚ
  deriving DecidableEq

/-- Outcome of the `self.client.publish(...)` call, an external collaborator:
either a result object with return code `c`, or an exception raised by
`json.dumps`/`publish`. -/
inductive PublishOutcome where
  | rc : Int → PublishOutcome
  | exn : PublishOutcome
  deriving DecidableEq

/-- Everything `MQTTDataService.send` produces: its Boolean return value, the
service state afterwards, the topic actually handed to `publish` (if the call
reached a publish), and the caller's dict after the in-place metadata
update. -/
structure SendResult where
  ok : Bool
  state : MQTTState
  publishedTopic : Option String
  data : PyDict

/-- Embedding of `MQTTDataService.send(data)`. Here `tp` is `self.topic_prefix`,
`deviceId` is `self.client_id`, `tMeta` and `tNow` are the two `time.time()`
readings, `outcome` is what the external `publish` call does. The source
order is kept: client/connected guards, metadata injection, the 1-second
throttle returning `True` without publishing, then the timestamp update
*before* the publish attempt, topic selection, and the publish itself. -/
def MQTTDataService.send (tp deviceId : String) (st : MQTTState) (data : PyDict)
    (tMeta tNow : ℚ) (outcome : PublishOutcome) : SendResult :=
  if st.clientInit = false then ⟨false, st, none, data⟩
  else if st.connected = false then ⟨false, st, none, data⟩
  else
    let data1 := dictUpdate data
      [("timestamp", .num tMeta), ("device_id", .str deviceId),
       ("data_version", .str "1.0")]
    if tNow - st.lastPubTime < 1 then ⟨true, st, none, data1⟩
    else
      let st1 : MQTTState := ⟨st.clientInit, st.connected, tNow⟩
      let topic := match dictGet? data1 "sensor_name" with
        | some v => tp ++ "/" ++ pyStr v
        | none => tp ++ "/default"
      match outcome with
      | .rc c => ⟨c == 0, st1, some topic, data1⟩
      | .exn => ⟨false, st1, none, data1⟩

/-- The data packet assembled by `MultiSensorDataCollector.process_and_send`:
a dict with exactly the keys `timestamp`, `features`, `raw_latest`. -/
def dataPacket (ts features rawLatest : PyVal) : PyDict :=
  [("timestamp", ts), ("features", features), ("raw_latest", rawLatest)]

/-! ## Publish-rate governor (modelled from the spec)

The decimation and dead-band gates are configured in
`src/config.py:_get_default_config` (`decimation_factor`, `delta_threshold`)
but the code implementing them is not under `src/`; only the minimum-interval
throttle appears there (in `MQTTDataService.send`). The governor below is
modelled from spec §4.4 and the `PublishState` data model of §3. -/

/-- Default `data_service.mqtt` configuration values from
`src/config.py:_get_default_config`. -/
def decimation_factor : ℕ := 10

/-- Default dead-band threshold (5%), from `src/config.py`. -/
def delta_threshold : ℚ := 0.05

/-- Modelled from the spec: the governor-owned `PublishState` of §3 —
last-publish timestamp, optional last-sent metric snapshot for the dead-band
comparison, and the running sample counter for decimation. -/
structure PublishState where
  counter : ℕ
  lastSent : Option (List ℚ)
  lastPubTime : ℚ

/-- Modelled from the spec: the decimation gate — with the running counter at
`c` before the cycle, the cycle is eligible iff it is an `N`-th cycle. -/
def decimPass (N c : ℕ) : Bool := (c + 1) % N == 0

/-- Modelled from the spec: relative change of one tracked scalar metric
(`delta_threshold` is documented as relative, §4.4). -/
def relChange (old cur : ℚ) : ℚ :=
  if old = 0 then |cur - old| else |cur - old| / |old|

/-- Modelled from the spec: the dead-band gate — a first-ever packet (no
baseline) always passes; otherwise the packet is suppressed iff every tracked
metric changed by less than `δ` relative to the last actually-sent packet. -/
def deadBandPass (δ : ℚ) (last : Option (List ℚ)) (cur : List ℚ) : Bool :=
  match last with
  | none => true
  | some prev => !((prev.zip cur).all fun oc => decide (relChange oc.1 oc.2 < δ))

/-- Modelled from the spec: one governor cycle (§4.4). The three throttles
compose: decimation, then dead-band, then minimum interval; the packet is
handed to the transport only when all pass, and the baseline/timestamp are
updated only when the transport reports success. Returns (decimation-gate
flag, sent flag, next state); the counter advances every cycle. -/
def governorStep (N : ℕ) (δ minIv : ℚ) (st : PublishState) (metrics : List ℚ)
    (now : ℚ) (sendOk : Bool) : Bool × Bool × PublishState :=
  let stc : PublishState := ⟨st.counter + 1, st.lastSent, st.lastPubTime⟩
  if !(decimPass N st.counter) then (false, false, stc)
  else if !(deadBandPass δ st.lastSent metrics) then (true, false, stc)
  else if now - st.lastPubTime < minIv then (true, false, stc)
  else if sendOk then (true, true, ⟨stc.counter, some metrics, now⟩)
  else (true, false, stc)

/-- Modelled from the spec: a run of consecutive governor cycles, collecting
each cycle's decimation-gate flag. A cycle is (metrics, clock reading,
transport outcome). -/
def govRun (N : ℕ) (δ minIv : ℚ) (st : PublishState) :
    List (List ℚ × ℚ × Bool) → List Bool × PublishState
  | [] => ([], st)
  | c :: rest =>
      let r := governorStep N δ minIv st c.1 c.2.1 c.2.2
      let rr := govRun N δ minIv r.2.2 rest
      (r.1 :: rr.1, rr.2)

theorem governorStep_counter (N : ℕ) (δ minIv : ℚ) (st : PublishState)
    (metrics : List ℚ) (now : ℚ) (ok : Bool) :
    (governorStep N δ minIv st metrics now ok).2.2.counter = st.counter + 1 := by
  unfold governorStep
  split_ifs <;> rfl

theorem governorStep_flag (N : ℕ) (δ minIv : ℚ) (st : PublishState)
    (metrics : List ℚ) (now : ℚ) (ok : Bool) :
    (governorStep N δ minIv st metrics now ok).1 = decimPass N st.counter := by
  unfold governorStep
  cases h : decimPass N st.counter
  · simp [h]
  · simp only [h, Bool.not_true, Bool.false_eq_true, if_false]
    split_ifs <;> rfl

theorem govRun_flags (N : ℕ) (δ minIv : ℚ) (cycles : List (List ℚ × ℚ × Bool)) :
    ∀ st : PublishState, (govRun N δ minIv st cycles).1 =
      (List.range cycles.length).map (fun i => decimPass N (st.counter + i)) := by
  induction cycles with
  | nil => intro st; simp [govRun]
  | cons c rest ih =>
      intro st
      simp only [govRun]
      rw [governorStep_flag, ih, governorStep_counter]
      rw [List.length_cons, List.range_succ_eq_map, List.map_cons, List.map_map]
      refine congrArg₂ List.cons (by simp) ?_
      refine List.map_congr_left ?_
      intro i _
      simp only [Function.comp_apply]
      congr 1
      omega

theorem countP_decim (k : ℕ) :
    List.countP (fun i => decimPass 10 i) (List.range (10 * k)) = k := by
  induction k with
  | zero => simp
  | succ k ih =>
      have h : 10 * (k + 1) = 10 * k + 10 := by ring
      rw [h, List.range_add, List.countP_append, ih, List.countP_map]
      have he : List.countP ((fun i => decimPass 10 i) ∘ (fun x => 10 * k + x))
          (List.range 10) = List.countP (fun i => decimPass 10 i) (List.range 10) := by
        refine List.countP_congr ?_
        intro x _
        simp only [Function.comp_apply, decimPass, Nat.add_assoc,
          Nat.mul_add_mod, beq_iff_eq]
      rw [he]
      norm_num [show List.countP (fun i => decimPass 10 i) (List.range 10) = 1 from by decide]

theorem relChange_self (a : ℚ) : relChange a a = 0 := by
  unfold relChange
  split_ifs <;> simp

theorem mem_zip_same {α : Type} {l : List α} {p : α × α} (h : p ∈ l.zip l) :
    p.1 = p.2 := by
  induction l with
  | nil => simp at h
  | cons a t ih =>
      rw [List.zip_cons_cons, List.mem_cons] at h
      rcases h with h | h
      · rw [h]
      · exact ih h

/-! ## Feature extraction (src/processing/features.py, src/processing/filters.py)

`ButterworthLowPass.apply` delegates entirely to scipy's `butter`/`filtfilt`
(an external library), so the filter's input-output behaviour is carried as a
function field; every theorem below holds for an arbitrary filter, with any
property actually needed (such as mapping the all-zero window to itself, which
holds for every linear filter) taken as an explicit hypothesis. -/

/-- Default `processing.window_size` from `config.py:_get_default_config`. -/
def window_size : ℕ := 256

/-- Embedding of `ButterworthLowPass` from src/processing/filters.py. -/
structure ButterworthLowPass where
  cutoff : ℝ
  fs : ℝ
  order : ℕ
  apply : List ℝ → List ℝ

/-- Number of bins produced by `scipy.fft.rfft` on an input of length `n`. -/
def rfftLen (n : ℕ) : ℕ := n / 2 + 1

/-- Bin `k` of `scipy.fft.rfft`: `X_k = Σ_j x_j · exp(-2πi·j·k/n)`. -/
noncomputable def rfftBin (x : List ℝ) (k : ℕ) : ℂ :=
  ∑ j ∈ Finset.range x.length,
    (x.getD j 0 : ℂ) *
      Complex.exp (-(2 * (Real.pi : ℂ) * Complex.I * (j : ℂ) * (k : ℂ)) / (x.length : ℂ))

/-- Magnitude `np.abs` of an rfft bin (the magnitude spectrum entry). -/
noncomputable def rfftMag (x : List ℝ) (k : ℕ) : ℝ := Complex.abs (rfftBin x k)

/-- Frequency of bin k: `scipy.fft.rfftfreq(n, 1/fs)[k] = k*fs/n`. -/
noncomputable def rfftfreq (fs : ℝ) (n : ℕ) (k : ℕ) : ℝ := (k : ℝ) * fs / (n : ℝ)

/-- Embedding of `np.argmax`: index of the first occurrence of the maximum. -/
noncomputable def npArgmax (l : List ℝ) : ℕ :=
  (List.range l.length).foldl
    (fun best i => if l.getD best 0 < l.getD i 0 then i else best) 0

/-- RMS computation `np.sqrt(np.mean(np.square(x)))`. -/
noncomputable def npRms (x : List ℝ) : ℝ :=
  Real.sqrt ((∑ j ∈ Finset.range x.length, x.getD j 0 ^ 2) / (x.length : ℝ))

/-- Bins of the (inclusive) tremor-band mask
`(freqs >= band[0]) & (freqs <= band[1])`. -/
noncomputable def tremorBins (fs : ℝ) (band : ℝ × ℝ) (n : ℕ) : Finset ℕ :=
  (Finset.range (rfftLen n)).filter
    (fun k => band.1 ≤ rfftfreq fs n k ∧ rfftfreq fs n k ≤ band.2)

/-- Tremor power: `np.sum(fft_magnitude[tremor_mask] ** 2) if np.any(tremor_mask) else 0`. -/
noncomputable def tremorPower (fs : ℝ) (band : ℝ × ℝ) (x : List ℝ) : ℝ :=
  if (tremorBins fs band x.length).Nonempty then
    ∑ k ∈ tremorBins fs band x.length, rfftMag x k ^ 2
  else 0

/-- Total power `np.sum(fft_magnitude ** 2)`. -/
noncomputable def totalPower (x : List ℝ) : ℝ :=
  ∑ k ∈ Finset.range (rfftLen x.length), rfftMag x k ^ 2

/-- The `fft_magnitude` array, as a list, for the argmax. -/
noncomputable def magnitudeList (x : List ℝ) : List ℝ :=
  (List.range (rfftLen x.length)).map (rfftMag x)

/-- Dominant frequency `freqs[dom_idx] if dom_idx < len(freqs) else 0`. -/
noncomputable def dominantFreq (fs : ℝ) (x : List ℝ) : ℝ :=
  if npArgmax (magnitudeList x) < rfftLen x.length then
    rfftfreq fs x.length (npArgmax (magnitudeList x))
  else 0

/-- The dictionary returned by `TremorProcessor.process`. -/
structure FeatureRecord where
  rms : ℝ
  dominant_freq : ℝ
  tremor_power : ℝ
  tremor_index : ℝ
  is_parkinsonian : Bool

/-- Embedding of `TremorProcessor` from src/processing/features.py. -/
structure TremorProcessor where
  fs : ℝ
  tremor_band : ℝ × ℝ
  filter : ButterworthLowPass

/-- Embedding of `TremorProcessor.process`, line by line from features.py. -/
noncomputable def TremorProcessor.process (p : TremorProcessor) (data : List ℝ) :
    FeatureRecord :=
  let filtered := p.filter.apply data
  let ti := if totalPower filtered > 0 then
      tremorPower p.fs p.tremor_band filtered / totalPower filtered
    else 0
  let domF := dominantFreq p.fs filtered
  ⟨npRms filtered, domF, tremorPower p.fs p.tremor_band filtered, ti,
    if p.tremor_band.1 ≤ domF ∧ domF ≤ p.tremor_band.2 ∧ ti > 0.3 then true
    else false⟩

theorem process_rms (p : TremorProcessor) (data : List ℝ) :
    (p.process data).rms = npRms (p.filter.apply data) := rfl

theorem process_tremor_index (p : TremorProcessor) (data : List ℝ) :
    (p.process data).tremor_index =
      (if totalPower (p.filter.apply data) > 0 then
        tremorPower p.fs p.tremor_band (p.filter.apply data) /
          totalPower (p.filter.apply data)
      else 0) := rfl

theorem process_dominant_freq (p : TremorProcessor) (data : List ℝ) :
    (p.process data).dominant_freq = dominantFreq p.fs (p.filter.apply data) := rfl

theorem process_is_parkinsonian (p : TremorProcessor) (data : List ℝ) :
    (p.process data).is_parkinsonian =
      (if p.tremor_band.1 ≤ (p.process data).dominant_freq ∧
          (p.process data).dominant_freq ≤ p.tremor_band.2 ∧
          (p.process data).tremor_index > 0.3 then true else false) := rfl

theorem tremorPower_nonneg (fs : ℝ) (band : ℝ × ℝ) (x : List ℝ) :
    0 ≤ tremorPower fs band x := by
  unfold tremorPower
  split_ifs
  · exact Finset.sum_nonneg fun _ _ => sq_nonneg _
  · exact le_refl 0

theorem totalPower_nonneg (x : List ℝ) : 0 ≤ totalPower x :=
  Finset.sum_nonneg fun _ _ => sq_nonneg _

theorem tremorPower_le_totalPower (fs : ℝ) (band : ℝ × ℝ) (x : List ℝ) :
    tremorPower fs band x ≤ totalPower x := by
  unfold tremorPower
  split_ifs
  · exact Finset.sum_le_sum_of_subset_of_nonneg (Finset.filter_subset _ _)
      (fun i _ _ => sq_nonneg _)
  · exact totalPower_nonneg x

theorem getD_replicate_zero (n j : ℕ) : (List.replicate n (0:ℝ)).getD j 0 = 0 := by
  rw [List.getD_eq_getElem?_getD, List.getElem?_replicate]
  split_ifs <;> rfl

theorem rfftBin_replicate_zero (n k : ℕ) : rfftBin (List.replicate n 0) k = 0 := by
  unfold rfftBin
  refine Finset.sum_eq_zero fun j _ => ?_
  rw [getD_replicate_zero]
  simp

theorem rfftMag_replicate_zero (n k : ℕ) : rfftMag (List.replicate n 0) k = 0 := by
  unfold rfftMag
  rw [rfftBin_replicate_zero]
  simp

theorem totalPower_replicate_zero (n : ℕ) : totalPower (List.replicate n 0) = 0 := by
  unfold totalPower
  refine Finset.sum_eq_zero fun k _ => ?_
  rw [rfftMag_replicate_zero]
  ring

theorem npRms_replicate_zero (n : ℕ) : npRms (List.replicate n 0) = 0 := by
  unfold npRms
  have h : (∑ j ∈ Finset.range (List.replicate n (0:ℝ)).length,
      (List.replicate n (0:ℝ)).getD j 0 ^ 2) = 0 :=
    Finset.sum_eq_zero fun j _ => by rw [getD_replicate_zero]; ring
  rw [h, zero_div, Real.sqrt_zero]

theorem npArgmax_of_getD_zero {l : List ℝ} (h : ∀ i, l.getD i 0 = 0) :
    npArgmax l = 0 := by
  unfold npArgmax
  have key : ∀ (idxs : List ℕ) (b : ℕ),
      idxs.foldl (fun best i => if l.getD best 0 < l.getD i 0 then i else best) b
        = b := by
    intro idxs
    induction idxs with
    | nil => intro b; rfl
    | cons i t ih =>
        intro b
        rw [List.foldl_cons, h, h]
        simp only [lt_self_iff_false, if_false]
        exact ih b
  exact key _ 0

theorem magnitudeList_replicate_zero_getD (n i : ℕ) :
    (magnitudeList (List.replicate n 0)).getD i 0 = 0 := by
  unfold magnitudeList
  rw [List.getD_eq_getElem?_getD, List.getElem?_map]
  cases h : (List.range (rfftLen (List.replicate n (0:ℝ)).length))[i]? with
  | none => rfl
  | some _ => simp [rfftMag_replicate_zero]

theorem dominantFreq_replicate_zero (fs : ℝ) (n : ℕ) :
    dominantFreq fs (List.replicate n 0) = 0 := by
  unfold dominantFreq
  rw [npArgmax_of_getD_zero (magnitudeList_replicate_zero_getD n)]
  rw [if_pos (by simp [rfftLen])]
  unfold rfftfreq
  simp

theorem process_index_zero_of_total_zero (p : TremorProcessor) (data : List ℝ)
    (h : totalPower (p.filter.apply data) = 0) :
    (p.process data).tremor_index = 0 := by
  rw [process_tremor_index, h]
  simp

/-! ## Rolling-window lemmas -/

theorem lastSlice_append_lastSlice {α : Type} (w : ℕ) (hw : 0 < w)
    (a b : List α) : lastSlice w (lastSlice w a ++ b) = lastSlice w (a ++ b) := by
  have hne : w ≠ 0 := Nat.pos_iff_ne_zero.mp hw
  unfold lastSlice
  rw [if_neg hne, if_neg hne, if_neg hne]
  rcases le_or_lt a.length w with h | h
  · rw [Nat.sub_eq_zero_of_le h, List.drop_zero]
  · have hlen : (a.drop (a.length - w)).length = w := by
      rw [List.length_drop]
      omega
    rw [← List.drop_append_of_le_length (Nat.sub_le a.length w), List.drop_drop]
    congr 1
    rw [List.length_drop, List.length_append]
    omega

theorem foldl_pushSample_lastSlice {α : Type} (w : ℕ) (hw : 0 < w)
    (samples : List α) : ∀ c : List α,
    samples.foldl (pushSample w) (lastSlice w c) = lastSlice w (c ++ samples) := by
  induction samples with
  | nil => intro c; rw [List.foldl_nil, List.append_nil]
  | cons s rest ih =>
      intro c
      rw [List.foldl_cons]
      have hstep : pushSample w (lastSlice w c) s = lastSlice w (c ++ [s]) :=
        lastSlice_append_lastSlice w hw c [s]
      rw [hstep, ih (c ++ [s]), List.append_assoc]
      rfl

theorem pushSample_length {α : Type} (w : ℕ) (buf : List α) (v : α) :
    (pushSample w buf v).length =
      if w = 0 then buf.length + 1 else min w (buf.length + 1) := by
  unfold pushSample lastSlice
  split_ifs with h
  · simp
  · rw [List.length_drop, List.length_append]
    simp only [List.length_cons, List.length_nil]
    omega

/-- Claim C2: the publish-rate governor applies a decimation gate — with the
default `decimation_factor = 10` and a fresh `PublishState`, any sequence of
`10·k` cycles handed to the governor has exactly `k` cycles passing the
decimation gate. -/
theorem decimation_gate_exact_count (k : ℕ) (δ minIv t0 : ℚ)
    (ls : Option (List ℚ)) (cycles : List (List ℚ × ℚ × Bool))
    (hlen : cycles.length = decimation_factor * k) :
    ((govRun decimation_factor δ minIv ⟨0, ls, t0⟩ cycles).1).count true = k := by
  rw [List.count_eq_countP, govRun_flags decimation_factor δ minIv cycles ⟨0, ls, t0⟩,
    hlen]
  simp only [decimation_factor, List.countP_map]
  have he : ((fun b => b == true) ∘ fun i =>
      decimPass 10 ((⟨0, ls, t0⟩ : PublishState).counter + i)) =
      fun i => decimPass 10 i := by
    funext i
    simp
  rw [he]
  exact countP_decim k

theorem decimation_gate_exact_count_witness :
    ((govRun decimation_factor delta_threshold 1 ⟨0, none, 0⟩
      (List.replicate 10 ([], 0, true))).1).count true = 1 :=
  decimation_gate_exact_count 1 delta_threshold 1 0 none _
    (by simp [decimation_factor])

/-- Claim C3: the dead-band gate — a first-ever packet (no baseline) always
passes; an eligible packet whose every tracked scalar metric changed by less
than `delta_threshold` (relative) since the last actually-sent snapshot is
suppressed; in particular the second of two consecutive identical feature
snapshots is suppressed. -/
theorem dead_band_gate (prev cur : List ℚ)
    (hall : ∀ oc ∈ prev.zip cur, relChange oc.1 oc.2 < delta_threshold) :
    deadBandPass delta_threshold none cur = true ∧
    deadBandPass delta_threshold (some prev) cur = false ∧
    deadBandPass delta_threshold (some cur) cur = false := by
  refine ⟨rfl, ?_, ?_⟩
  · unfold deadBandPass
    rw [Bool.not_eq_false', List.all_eq_true]
    intro oc hmem
    exact decide_eq_true (hall oc hmem)
  · unfold deadBandPass
    rw [Bool.not_eq_false', List.all_eq_true]
    intro oc hmem
    have h12 : oc.1 = oc.2 := mem_zip_same hmem
    rw [h12, relChange_self]
    exact decide_eq_true (by norm_num [delta_threshold])

theorem dead_band_gate_witness :
    deadBandPass delta_threshold (some [1]) [1] = false :=
  (dead_band_gate [1] [1] (by
    intro oc hmem
    rw [mem_zip_same hmem, relChange_self]
    norm_num [delta_threshold])).2.2

/-- Claim C4: a call to `send` arriving less than the 1-second minimum
publish interval after the previous publish timestamp publishes nothing; when
such a call reaches the throttle (client initialized and connected) the cycle
is dropped, not queued, and the call reports success with the service state
unchanged. -/
theorem send_min_interval_throttle (tp deviceId : String) (st : MQTTState)
    (data : PyDict) (tMeta tNow : ℚ) (outcome : PublishOutcome)
    (hiv : tNow - st.lastPubTime < 1) :
    (MQTTDataService.send tp deviceId st data tMeta tNow outcome).publishedTopic
      = none ∧
    (st.clientInit = true → st.connected = true →
      (MQTTDataService.send tp deviceId st data tMeta tNow outcome).ok = true ∧
      (MQTTDataService.send tp deviceId st data tMeta tNow outcome).state = st)
    := by
  unfold MQTTDataService.send
  split_ifs with h1 h2
  · exact ⟨rfl, fun ht _ => absurd (ht.symm.trans h1) (by decide)⟩
  · exact ⟨rfl, fun _ hc => absurd (hc.symm.trans h2) (by decide)⟩
  · exact ⟨rfl, fun _ _ => ⟨rfl, rfl⟩⟩

theorem send_min_interval_throttle_witness :
    (MQTTDataService.send "p" "d" ⟨true, true, 0⟩ [] 0 (1/2) (.rc 0)).ok = true :=
  (((send_min_interval_throttle "p" "d" ⟨true, true, 0⟩ [] 0 (1/2) (.rc 0)
    (by norm_num)).2) rfl rfl).1

/-- Claim C1 counterexample: a connected `send` at time 2 whose publish
attempt fails (return code 1) returns failure, yet `_last_pub_time` has moved
from 0 to 2, because the timestamp is written before the publish attempt. -/
theorem send_delivery_failure_advances_timestamp :
    (MQTTDataService.send "p" "d" ⟨true, true, 0⟩ [] 2 2 (.rc 1)).ok = false ∧
    (MQTTDataService.send "p" "d" ⟨true, true, 0⟩ [] 2 2
      (.rc 1)).state.lastPubTime = 2 ∧ ((2 : ℚ) ≠ 0) := by
  have hcond : ¬((2 : ℚ) - 0 < 1) := by norm_num
  unfold MQTTDataService.send
  rw [if_neg (c := (2 : ℚ) - 0 < 1) hcond]
  · exact ⟨rfl, rfl, by norm_num⟩

/-- Claim C1 amended: a `send` that fails before reaching the publish stage
(client uninitialized, or not connected) returns failure with the service
state — in particular `_last_pub_time` — unchanged; but a call that passes
the minimum-interval check writes `_last_pub_time := now` before attempting
delivery, so a call whose delivery then fails still leaves the timestamp
advanced to the call time. The transport state holds no dead-band
baseline. -/
theorem send_failure_state_split (tp deviceId : String) (st : MQTTState)
    (data : PyDict) (tMeta tNow : ℚ) (outcome : PublishOutcome) :
    ((st.clientInit = false ∨ st.connected = false) →
      (MQTTDataService.send tp deviceId st data tMeta tNow outcome).ok = false ∧
      (MQTTDataService.send tp deviceId st data tMeta tNow outcome).state = st) ∧
    (¬ tNow - st.lastPubTime < 1 → st.clientInit = true → st.connected = true →
      (MQTTDataService.send tp deviceId st data tMeta tNow
        outcome).state.lastPubTime = tNow) := by
  unfold MQTTDataService.send
  split_ifs with h1 h2 h3
  · exact ⟨fun _ => ⟨rfl, rfl⟩, fun _ ht _ => absurd (ht.symm.trans h1) (by decide)⟩
  · exact ⟨fun _ => ⟨rfl, rfl⟩, fun _ _ hc => absurd (hc.symm.trans h2) (by decide)⟩
  · refine ⟨?_, fun hiv _ _ => absurd h3 hiv⟩
    rintro (hc | hc)
    · exact absurd hc h1
    · exact absurd hc h2
  · refine ⟨?_, fun _ _ _ => ?_⟩
    · rintro (hc | hc)
      · exact absurd hc h1
      · exact absurd hc h2
    · cases outcome <;> rfl

theorem send_failure_state_split_witness :
    (MQTTDataService.send "p" "d" ⟨true, false, 0⟩ [] 2 2 (.rc 0)).ok = false ∧
    (MQTTDataService.send "p" "d" ⟨true, true, 0⟩ [] 5 5
      .exn).state.lastPubTime = 5 :=
  ⟨((send_failure_state_split "p" "d" ⟨true, false, 0⟩ [] 2 2
      (.rc 0)).1 (Or.inr rfl)).1,
   (send_failure_state_split "p" "d" ⟨true, true, 0⟩ [] 5 5
      .exn).2 (by norm_num) rfl rfl⟩

/-- Claim C10: every packet assembled by the orchestrator has exactly the
keys `timestamp`, `features`, `raw_latest` — never `sensor_name` — and
consequently whenever `send` publishes such a packet the topic is the
`/default` one; the per-sensor topic form is never used. -/
theorem packet_topic_always_default (ts features rawLatest : PyVal)
    (tp deviceId : String) (st : MQTTState) (tMeta tNow : ℚ)
    (outcome : PublishOutcome) :
    dictKeys (dataPacket ts features rawLatest) =
      ["timestamp", "features", "raw_latest"] ∧
    dictKeyMem (dataPacket ts features rawLatest) "sensor_name" = false ∧
    ∀ t ∈ (MQTTDataService.send tp deviceId st (dataPacket ts features rawLatest)
        tMeta tNow outcome).publishedTopic, t = tp ++ "/default" := by
  refine ⟨rfl, rfl, ?_⟩
  have hget : dictGet? (dictUpdate (dataPacket ts features rawLatest)
      [("timestamp", .num tMeta), ("device_id", .str deviceId),
       ("data_version", .str "1.0")]) "sensor_name" = none := rfl
  unfold MQTTDataService.send
  split_ifs with h1 h2 h3
  · intro t ht; simp at ht
  · intro t ht; simp at ht
  · intro t ht; simp at ht
  · cases outcome with
    | rc c =>
        dsimp only
        rw [hget]
        intro t ht
        simp only [Option.mem_def, Option.some.injEq] at ht
        exact ht.symm
    | exn => intro t ht; simp at ht

theorem packet_topic_always_default_witness :
    dictKeyMem (dataPacket (.num 0) (.num 1) (.num 2)) "sensor_name" = false ∧
    ("p" ++ "/default") = "p" ++ "/default" := by
  refine ⟨(packet_topic_always_default (.num 0) (.num 1) (.num 2) "p" "d"
      ⟨true, true, 0⟩ 2 2 (.rc 0)).2.1, ?_⟩
  refine (packet_topic_always_default (.num 0) (.num 1) (.num 2) "p" "d"
      ⟨true, true, 0⟩ 2 2 (.rc 0)).2.2 ("p" ++ "/default") ?_
  show (MQTTDataService.send "p" "d" ⟨true, true, 0⟩
      (dataPacket (.num 0) (.num 1) (.num 2)) 2 2 (.rc 0)).publishedTopic
    = some ("p" ++ "/default")
  have hcond : ¬((2 : ℚ) - 0 < 1) := by norm_num
  unfold MQTTDataService.send
  rw [if_neg (c := (2 : ℚ) - 0 < 1) hcond]
  rfl

/-- Claim C5: for every sample series of the configured window length,
`process` returns a tremor index in [0, 1] and a non-negative RMS. -/
theorem process_index_unit_rms_nonneg (p : TremorProcessor) (data : List ℝ)
    (_hlen : data.length = window_size) :
    0 ≤ (p.process data).tremor_index ∧ (p.process data).tremor_index ≤ 1 ∧
      0 ≤ (p.process data).rms := by
  refine ⟨?_, ?_, ?_⟩
  · rw [process_tremor_index]
    split_ifs with h
    · exact div_nonneg (tremorPower_nonneg _ _ _) (le_of_lt h)
    · exact le_refl 0
  · rw [process_tremor_index]
    split_ifs with h
    · exact (div_le_one h).mpr (tremorPower_le_totalPower _ _ _)
    · exact zero_le_one
  · rw [process_rms]
    exact Real.sqrt_nonneg _

/-- A concrete processor (identity filter, default configuration values)
used only by witnesses. -/
noncomputable def testProcessor : TremorProcessor :=
  ⟨100, (3, 6), ⟨12, 100, 4, id⟩⟩

theorem process_index_unit_rms_nonneg_witness :
    0 ≤ (testProcessor.process (List.replicate window_size 0)).tremor_index ∧
    (testProcessor.process (List.replicate window_size 0)).tremor_index ≤ 1 ∧
    0 ≤ (testProcessor.process (List.replicate window_size 0)).rms :=
  process_index_unit_rms_nonneg testProcessor (List.replicate window_size 0)
    (by simp)

/-- Claim C6: whenever the total spectral power of the filtered series is
zero (for example a constant or all-zero series), the guarded division
yields `tremor_index = 0`; the division-by-zero branch is never taken. -/
theorem process_zero_total_power (p : TremorProcessor) (data : List ℝ)
    (h : totalPower (p.filter.apply data) = 0) :
    (p.process data).tremor_index = 0 :=
  process_index_zero_of_total_zero p data h

theorem process_zero_total_power_witness :
    (testProcessor.process (List.replicate window_size 0)).tremor_index = 0 :=
  process_zero_total_power testProcessor (List.replicate window_size 0)
    (totalPower_replicate_zero window_size)

/-- Claim C7: `is_parkinsonian` is true iff the dominant frequency lies in
the tremor band (inclusive on both ends) and `tremor_index > 0.3`; in
particular, for an all-zero window (with the default band (3,6) and a filter
mapping the zero window to itself, as every linear filter does) the record
has `rms = 0`, `tremor_index = 0` and `is_parkinsonian = false`. -/
theorem process_is_parkinsonian_iff (p q : TremorProcessor) (data : List ℝ)
    (hq : q.filter.apply (List.replicate window_size 0) =
      List.replicate window_size 0)
    (hband : q.tremor_band = (3, 6)) :
    ((p.process data).is_parkinsonian = true ↔
      (p.tremor_band.1 ≤ (p.process data).dominant_freq ∧
       (p.process data).dominant_freq ≤ p.tremor_band.2 ∧
       (p.process data).tremor_index > 0.3)) ∧
    (q.process (List.replicate window_size 0)).rms = 0 ∧
    (q.process (List.replicate window_size 0)).tremor_index = 0 ∧
    (q.process (List.replicate window_size 0)).is_parkinsonian = false := by
  refine ⟨?_, ?_, ?_, ?_⟩
  · rw [process_is_parkinsonian]
    split_ifs with h
    · exact iff_of_true rfl h
    · exact iff_of_false (by simp) h
  · rw [process_rms, hq]
    exact npRms_replicate_zero _
  · exact process_index_zero_of_total_zero q _
      (by rw [hq]; exact totalPower_replicate_zero _)
  · rw [process_is_parkinsonian, process_dominant_freq, hq,
      dominantFreq_replicate_zero, hband]
    rw [if_neg]
    intro hcon
    exact absurd hcon.1 (by norm_num)

theorem process_is_parkinsonian_iff_witness :
    (testProcessor.process (List.replicate window_size 0)).is_parkinsonian
      = false :=
  (process_is_parkinsonian_iff testProcessor testProcessor
    (List.replicate window_size 0) rfl rfl).2.2.2

/-- Claim C8: pushing `N > window_size` samples through the rolling update
leaves the buffer holding exactly the most recent `window_size` samples in
their original arrival order (FIFO insertion with eviction of the oldest),
for any positive window capacity and any starting buffer. -/
theorem buffers_keep_last_window {α : Type} (w : ℕ) (init samples : List α)
    (hw : 0 < w) (hlen : w < samples.length) :
    samples.foldl (pushSample w) init = samples.drop (samples.length - w) ∧
    (samples.foldl (pushSample w) init).length = w := by
  have hfold : samples.foldl (pushSample w) init
      = lastSlice w (init ++ samples) := by
    cases samples with
    | nil =>
        rw [List.length_nil] at hlen
        exact absurd hlen (Nat.not_lt_zero w)
    | cons s rest =>
        rw [List.foldl_cons]
        have hstep : pushSample w init s = lastSlice w (init ++ [s]) := rfl
        rw [hstep, foldl_pushSample_lastSlice w hw rest (init ++ [s]),
          List.append_assoc]
        rfl
  rw [hfold]
  have hdrop : lastSlice w (init ++ samples)
      = samples.drop (samples.length - w) := by
    unfold lastSlice
    rw [if_neg (Nat.pos_iff_ne_zero.mp hw), List.length_append]
    have harith : init.length + samples.length - w
        = init.length + (samples.length - w) := by omega
    rw [harith, List.drop_append]
  rw [hdrop]
  refine ⟨rfl, ?_⟩
  rw [List.length_drop]
  omega

theorem buffers_keep_last_window_witness :
    ([1, 2, 3] : List ℚ).foldl (pushSample 2) [] = [2, 3] ∧
    (([1, 2, 3] : List ℚ).foldl (pushSample 2) []).length = 2 := by
  have h := buffers_keep_last_window 2 ([] : List ℚ) [1, 2, 3]
    (by norm_num) (by simp)
  simpa using h

/-- Claim C9: for every sensor the three axis buffers have equal length —
the invariant holds for the initial (all empty) state and is preserved by
every buffer update, since the three axes are appended together; under the
invariant the orchestrator's readiness test, which inspects only the x
buffer, is equivalent to testing all three axes. -/
theorem axis_buffers_equal_length {α : Type} (w : ℕ) (b : AxisBuffers α)
    (r : α × α × α) (hb : eqLen b) :
    eqLen (initBuffers : AxisBuffers α) ∧
    eqLen (update_buffers w b r) ∧
    (¬ b.x.length < w ↔
      ¬ b.x.length < w ∧ ¬ b.y.length < w ∧ ¬ b.z.length < w) := by
  unfold eqLen at hb
  obtain ⟨h1, h2⟩ := hb
  unfold eqLen update_buffers initBuffers
  refine ⟨⟨rfl, rfl⟩, ⟨?_, ?_⟩, ?_⟩
  · dsimp only
    rw [pushSample_length, pushSample_length, h1]
  · dsimp only
    rw [pushSample_length, pushSample_length, h2]
  · omega

theorem axis_buffers_equal_length_witness :
    eqLen (update_buffers 2 (initBuffers : AxisBuffers ℚ) (1, 2, 3)) :=
  (axis_buffers_equal_length 2 (initBuffers : AxisBuffers ℚ) (1, 2, 3)
    ⟨rfl, rfl⟩).2.1
